import Mathlib

/-!
Verification development for the morning-routine-agent repository.

The repository's audit ledger (Block / Ledger: mining, verification and
persistence) is described by the specification but its implementation is not
among the source files; those definitions are modelled from the spec, with
the cryptographic digest kept abstract as a function parameter `H`.
The agent-side functions (`run_morning_routine`, `get_todays_todoist_tasks`,
the tools' `_arun` methods, `control_security`) are shallow embeddings of the
Python source in src/morning_agent.py and src/home_ai.py.
-/

/-- Modelled from the spec: the difficulty predicate — a seal passes
difficulty `d` when it starts with `d` hex-zero characters (the semantics of
a `startswith` check against a string of `d` zeros). -/
def meetsDifficulty (d : Nat) (s : String) : Bool :=
  decide (s.toList.take d = List.replicate d '0')

/-- Modelled from the spec: the Block record, missing from src/ — index,
creation time, opaque payload, link to the predecessor's seal, a nonce, and
the content-derived seal. Timestamps are modelled as naturals. -/
structure Block (α : Type) where
  index : Nat
  timestamp : Nat
  payload : α
  previous_seal : String
  nonce : Nat
  seal' : String

variable {α : Type} (H : Nat → Nat → α → String → Nat → String)

/-- Modelled from the spec: `calculate_seal()` — a pure function of the
block's current fields, the single source of truth for hashing; the digest
itself is the abstract parameter `H`. -/
def calculate_seal (b : Block α) : String :=
  H b.index b.timestamp b.payload b.previous_seal b.nonce

/-- Modelled from the spec: `Block.new` — an unsealed block with `nonce = 0`
and an initial seal computed over that nonce. -/
def Block.new (i t : Nat) (p : α) (ps : String) : Block α :=
  ⟨i, t, p, ps, 0, H i t p ps 0⟩

/-- Modelled from the spec: the assumption that the nonce search terminates
from any starting nonce at any difficulty (the spec assumes mining cannot
fail, only take longer). -/
def MineableAll : Prop :=
  ∀ d i t p ps s, ∃ k, meetsDifficulty d (H i t p ps (s + k)) = true

/-- Modelled from the spec: `mine(difficulty)` — the least nonce at or above
the block's current nonce whose recomputed seal passes the difficulty
predicate; the loop checks the current seal, which for blocks constructed by
`Block.new` always equals the recomputed hash, so the search is modelled
directly over the recomputed hash. -/
def mine (hg : MineableAll H) (d : Nat) (b : Block α) : Block α :=
  let k := Nat.find (hg d b.index b.timestamp b.payload b.previous_seal b.nonce)
  { b with nonce := b.nonce + k,
           seal' := H b.index b.timestamp b.payload b.previous_seal (b.nonce + k) }

/-- Modelled from the spec: the Ledger, missing from src/ — the ordered
chain of blocks and the fixed mining difficulty. -/
structure Ledger (α : Type) where
  chain : List (Block α)
  difficulty : Nat

/-- Modelled from the spec: the per-block check made by `verify()` at each
position `i ≥ 1` — the stored seal equals the recomputed seal, and the
block's `previous_seal` equals the predecessor's stored seal. -/
def checkPair (a b : Block α) : Bool :=
  decide (b.seal' = calculate_seal H b) && decide (b.previous_seal = a.seal')

/-- Modelled from the spec: the walk `verify()` performs — every adjacent
pair passes `checkPair`; the genesis block's own seal is not re-checked
(the spec records that the observed system checks from index 1 onward). -/
def chainValid : List (Block α) → Bool
  | a :: b :: r => checkPair H a b && chainValid (b :: r)
  | _ => true

/-- Modelled from the spec: `verify()` — pure, read-only integrity check of
the full chain. -/
def verify (L : Ledger α) : Bool :=
  chainValid H L.chain

/-- Modelled from the spec: `initialize()` — if the chain is empty, construct
and mine a genesis block with `previous_seal = "0"` and the sentinel payload
`g`, then append it; idempotent on a non-empty chain. -/
def ledgerInit (hg : MineableAll H) (t : Nat) (g : α) (L : Ledger α) : Ledger α :=
  if L.chain.isEmpty then
    { L with chain := [mine H hg L.difficulty (Block.new H 0 t g "0")] }
  else L

/-- Modelled from the spec: `append(payload)` — build a block with
`index = len(chain)`, the supplied timestamp and payload, and
`previous_seal = chain[-1].seal'`; mine it at the ledger's difficulty; append
it; return it. On an empty chain there is no tail to link to (`none`). -/
def append (hg : MineableAll H) (t : Nat) (p : α) (L : Ledger α) :
    Option (Ledger α × Block α) :=
  match L.chain.getLast? with
  | none => none
  | some tail =>
    let b := mine H hg L.difficulty (Block.new H L.chain.length t p tail.seal')
    some ({ L with chain := L.chain ++ [b] }, b)

/-- One `append` step inside a fold over a list of (timestamp, payload)
pairs; an impossible empty-chain step leaves the ledger unchanged. -/
def appendStep (hg : MineableAll H) (L : Ledger α) (it : Nat × α) : Ledger α :=
  match append H hg it.1 it.2 L with
  | none => L
  | some Lb => Lb.1

/-- A ledger built by `initialize()` followed by a finite sequence of
`append()` calls, one per (timestamp, payload) item. -/
def buildLedger (hg : MineableAll H) (d t : Nat) (g : α) (items : List (Nat × α)) :
    Ledger α :=
  items.foldl (appendStep H hg) (ledgerInit H hg t g ⟨[], d⟩)

/-- Modelled from the spec: one persisted record of the stable storage
encoding, with exactly the storage field names `index`, `timestamp`, `data`,
`previous_hash`, `nonce`, `hash`. -/
structure ChainRecord (α : Type) where
  index : Nat
  timestamp : Nat
  data : α
  previous_hash : String
  nonce : Nat
  hash : String

/-- Serialization of one block, every field verbatim. -/
def toRecord (b : Block α) : ChainRecord α :=
  ⟨b.index, b.timestamp, b.payload, b.previous_seal, b.nonce, b.seal'⟩

/-- Deserialization of one record, every field verbatim (no re-mining). -/
def ofRecord (r : ChainRecord α) : Block α :=
  ⟨r.index, r.timestamp, r.data, r.previous_hash, r.nonce, r.hash⟩

/-- Modelled from the spec: the state of the persistence source seen by
`load` — absent, present but unparseable, or a parsed list of records. -/
inductive ChainSource (α : Type) where
  | missing : ChainSource α
  | corrupt : ChainSource α
  | stored : List (ChainRecord α) → ChainSource α

/-- Modelled from the spec: `save(destination)` — serializes the full
ordered chain, every field per block verbatim, overwriting the destination
wholesale. -/
def save (L : Ledger α) : ChainSource α :=
  ChainSource.stored (L.chain.map toRecord)

/-- The persistence failure taxonomy: a corrupt/unparseable source. -/
inductive LoadError where
  | parseError : LoadError
deriving DecidableEq

/-- Modelled from the spec: `load(source)` — a missing source falls back to
`initialize()` (fresh genesis ledger, not an error); a corrupt source is an
error and does not fall back; a stored chain is reconstructed
field-for-field with no re-mining. -/
def load (hg : MineableAll H) (d t : Nat) (g : α) (src : ChainSource α) :
    Except LoadError (Ledger α) :=
  match src with
  | ChainSource.missing => Except.ok (ledgerInit H hg t g ⟨[], d⟩)
  | ChainSource.corrupt => Except.error LoadError.parseError
  | ChainSource.stored rs => Except.ok ⟨rs.map ofRecord, d⟩

/-- The well-formedness invariant maintained by initialization and append:
fixed difficulty, non-empty chain, a valid chain walk, and proof-of-work on
every block. -/
def LedgerWF (d : Nat) (L : Ledger α) : Prop :=
  L.difficulty = d ∧ L.chain ≠ [] ∧ chainValid H L.chain = true ∧
    ∀ b ∈ L.chain, meetsDifficulty d b.seal' = true

/-- A concrete digest used to instantiate the abstract hash in witnesses:
nonce 0 hashes to a non-zero string, nonce `n > 0` to a string of `n`
zeros, so a passing nonce exists at every difficulty. -/
def hw : Nat → Nat → Nat → String → Nat → String :=
  fun _ _ _ _ n => if n = 0 then "x" else String.mk (List.replicate n '0')

/-- A concrete injective-style digest used for tamper-detection witnesses:
a readable encoding of all five hashed fields. -/
def h3 : Nat → Nat → Nat → String → Nat → String :=
  fun i t p ps n =>
    toString i ++ "|" ++ toString t ++ "|" ++ toString p ++ "|" ++ ps ++ "|" ++ toString n

/-!  Shallow embeddings of the agent code present in src/.  -/

/-- Effects the scheduled routine runner can perform; `integrityCheck b`
records a ledger integrity check returning `b`. -/
inductive AgentAction where
  | integrityCheck : Bool → AgentAction
  | agentRun : String → AgentAction
  | printOut : String → AgentAction
deriving DecidableEq

/-- Shallow embedding of `run_morning_routine` (src/morning_agent.py): the
function the schedule calls daily; it passes the fixed message to the agent
and prints the response. The result is the trace of effects performed, in
order. -/
def run_morning_routine (agent : String → String) : List AgentAction :=
  [AgentAction.agentRun "Please run morning routine.",
   AgentAction.printOut "\n=== Final Agent Response ===",
   AgentAction.printOut (agent "Please run morning routine.")]

/-- A trace is gated when every agent run is preceded by an integrity check
that returned `true` (the formal reading of "routine execution is gated on
`is_intact()` returning true"). -/
def GatedTrace (tr : List AgentAction) : Prop :=
  ∀ i (h : i < tr.length), (∃ msg, tr.get ⟨i, h⟩ = AgentAction.agentRun msg) →
    ∃ j, ∃ hj : j < tr.length, j < i ∧ tr.get ⟨j, hj⟩ = AgentAction.integrityCheck true

/-- One entry of the list returned by `get_todays_todoist_tasks`: either an
error dictionary or a task dictionary. -/
inductive TodoEntry where
  | errorEntry : String → TodoEntry
  | taskEntry : Option String → Option String → TodoEntry
deriving DecidableEq

/-- One item of the parsed Todoist API response body. -/
structure TodoistItem where
  content : Option String
  dueDate : Option String
deriving DecidableEq

/-- The HTTP response the Todoist API would return, as seen by the code:
status code, raw text, and the parsed item list. -/
structure HttpResp where
  statusCode : Nat
  text : String
  items : List TodoistItem
deriving DecidableEq

/-- Shallow embedding of `get_todays_todoist_tasks` (src/morning_agent.py).
`token` is `os.environ.get("TODOIST_API_TOKEN")`; a missing or empty token
is falsy in Python, so both short-circuit before any network request. The
boolean in the result records whether the HTTP request was performed. -/
def get_todays_todoist_tasks (token : Option String) (resp : HttpResp) :
    Bool × List TodoEntry :=
  if token.getD "" = "" then
    (false, [TodoEntry.errorEntry "Missing TODOIST_API_TOKEN"])
  else if resp.statusCode ≠ 200 then
    (true, [TodoEntry.errorEntry ("Todoist API error: " ++ resp.text)])
  else
    (true, resp.items.map (fun it => TodoEntry.taskEntry it.content it.dueDate))

/-- The Python exception raised by the tools' async variants. -/
inductive PyError where
  | notImplementedError : String → PyError
deriving DecidableEq

/-- Shallow embedding of `AlarmTool._arun` (src/morning_agent.py). -/
def AlarmTool_arun (_query : String) : Except PyError String :=
  Except.error (PyError.notImplementedError "AlarmTool does not support async")

/-- Shallow embedding of `FetchNewsTool._arun` (src/morning_agent.py). -/
def FetchNewsTool_arun (_query : String) : Except PyError String :=
  Except.error (PyError.notImplementedError "FetchNewsTool does not support async")

/-- Shallow embedding of `SummarizeTextTool._arun` (src/morning_agent.py). -/
def SummarizeTextTool_arun (_text : String) : Except PyError String :=
  Except.error (PyError.notImplementedError "SummarizeTextTool does not support async")

/-- Shallow embedding of `StartMusicTool._arun` (src/morning_agent.py). -/
def StartMusicTool_arun (_query : String) : Except PyError String :=
  Except.error (PyError.notImplementedError "StartMusicTool does not support async")

/-- Shallow embedding of `CalendarTool._arun` (src/morning_agent.py). -/
def CalendarTool_arun (_query : String) : Except PyError String :=
  Except.error (PyError.notImplementedError "CalendarTool does not support async")

/-- Shallow embedding of `TasksTool._arun` (src/morning_agent.py). -/
def TasksTool_arun (_query : String) : Except PyError String :=
  Except.error (PyError.notImplementedError "TasksTool does not support async")

/-- A JSON scalar value as relevant to `control_security`. -/
inductive JVal where
  | str : String → JVal
  | num : Int → JVal
  | boolean : Bool → JVal
  | null : JVal
deriving DecidableEq

/-- The outcome of `json.loads` on the command string: a JSON object
(string-keyed mapping) or some non-object value (whose subscripting raises,
landing in the `except` branch). -/
inductive PyJson where
  | obj : List (String × JVal) → PyJson
  | nonObj : JVal → PyJson
deriving DecidableEq

/-- Dictionary lookup, first binding wins, as in a Python dict built by
`json.loads`. -/
def jsonLookup (key : String) : List (String × JVal) → Option JVal
  | [] => none
  | (k, v) :: rest => if k = key then some v else jsonLookup key rest

/-- How a JSON scalar prints inside a Python f-string. -/
def renderJVal : JVal → String
  | JVal.str s => s
  | JVal.num n => toString n
  | JVal.boolean b => if b then "True" else "False"
  | JVal.null => "None"

/-- The `DeviceState` dataclass of src/home_ai.py; the float-valued climate
map is modelled with integer values, which no claim inspects. -/
structure DeviceState where
  lights : List (String × Bool)
  media : String
  climate : List (String × Int)
  security : Bool
deriving DecidableEq

/-- Shallow embedding of `RealTimeHomeAgent.control_security`
(src/home_ai.py). The input is the outcome of `json.loads` on the command
(`none` models a parse failure). A missing `"action"` key raises KeyError
before the assignment, and a non-object command raises TypeError at the
subscript, so both leave the state untouched and land in the `except`
branch. -/
def control_security (parsed : Option PyJson) (st : DeviceState) :
    String × DeviceState :=
  match parsed with
  | some (PyJson.obj fields) =>
    match jsonLookup "action" fields with
    | some v =>
      ("Security system " ++ renderJVal v ++ "ed",
       { st with security := decide (v = JVal.str "arm") })
    | none => ("Security control failed", st)
  | _ => ("Security control failed", st)

/-- A concrete genesis block for witnesses (its own seal is never
re-checked by the walk, matching the observed `verify()`). -/
def b0 : Block Nat := ⟨0, 0, 0, "0", 0, "g"⟩

/-- A concrete sealed successor of `b0` under the digest `h3`. -/
def b1 : Block Nat := ⟨1, 5, 7, "g", 3, "1|5|7|g|3"⟩

/-- A concrete two-block ledger, valid under the digest `h3`. -/
def L3 : Ledger Nat := ⟨[b0, b1], 2⟩

/-- A concrete one-block ledger for the persistence round-trip witness. -/
def L4 : Ledger Nat := ⟨[b0], 3⟩

/-- A concrete one-block ledger for the append witness. -/
def L6 : Ledger Nat := ⟨[b0], 0⟩

/-! ### Basic properties of mining and chain validity -/

/-- The mined seal passes the difficulty predicate. -/
theorem mine_meets (hg : MineableAll H) (d : Nat) (b : Block α) :
    meetsDifficulty d (mine H hg d b).seal' = true :=
  Nat.find_spec (hg d b.index b.timestamp b.payload b.previous_seal b.nonce)

/-- The witness digest admits a passing nonce at every difficulty. -/
theorem hw_mineable : MineableAll hw := by
  intro d i t p ps s
  refine ⟨d + 1, ?_⟩
  have h0 : ¬ s + (d + 1) = 0 := by omega
  have hm : min d (s + (d + 1)) = d := by omega
  simp only [hw, if_neg h0, meetsDifficulty, decide_eq_true_eq]
  show (List.replicate (s + (d + 1)) '0').take d = List.replicate d '0'
  rw [List.take_replicate, hm]

/-- Appending one block to a non-empty chain: the walk over the extended
chain is the walk over the old chain together with the check of the new
tail against the old tail. -/
theorem chainValid_append : ∀ (c : List (Block α)) (tail : Block α),
    c.getLast? = some tail → ∀ (b : Block α),
    chainValid H (c ++ [b]) = (chainValid H c && checkPair H tail b)
  | [], _, hlast, _ => by simp at hlast
  | [a], tail, hlast, b => by
    have ha : a = tail := by simpa using hlast
    subst ha
    simp [chainValid]
  | a :: a' :: r, tail, hlast, b => by
    rw [List.getLast?_cons_cons] at hlast
    have ih := chainValid_append (a' :: r) tail hlast b
    show (checkPair H a a' && chainValid H ((a' :: r) ++ [b]))
        = ((checkPair H a a' && chainValid H (a' :: r)) && checkPair H tail b)
    rw [ih, Bool.and_assoc]

/-- A chain that passes the walk passes the pair check at every adjacent
pair of positions. -/
theorem chainValid_pairs :
    ∀ (c : List (Block α)) (i : Nat), chainValid H c = true →
      ∀ (h : i + 1 < c.length),
        checkPair H (c.get ⟨i, by omega⟩) (c.get ⟨i + 1, h⟩) = true
  | [], _, _, h => by simp at h
  | [_], _, _, h => by simp at h
  | a :: a' :: r, 0, hcv, h => by
    have h2 : checkPair H a a' = true ∧ chainValid H (a' :: r) = true := by
      simpa [chainValid] using hcv
    exact h2.1
  | a :: a' :: r, i + 1, hcv, h => by
    have h2 : checkPair H a a' = true ∧ chainValid H (a' :: r) = true := by
      simpa [chainValid] using hcv
    exact chainValid_pairs (a' :: r) i h2.2 (by simpa using Nat.succ_lt_succ_iff.mp h)

/-- The freshly mined extension of a block `a` passes the pair check
against `a`. -/
theorem checkPair_mine (hg : MineableAll H) (d len t : Nat) (p : α) (a : Block α) :
    checkPair H a (mine H hg d (Block.new H len t p a.seal')) = true := by
  simp [checkPair, calculate_seal, mine, Block.new]

/-- `initialize()` on the fresh ledger establishes the well-formedness
invariant. -/
theorem ledgerInit_wf (hg : MineableAll H) (d t : Nat) (g : α) :
    LedgerWF H d (ledgerInit H hg t g ⟨[], d⟩) := by
  refine ⟨rfl, by simp [ledgerInit], rfl, ?_⟩
  intro b hb
  have hb' : b = mine H hg d (Block.new H 0 t g "0") := by
    simpa [ledgerInit] using hb
  subst hb'
  exact mine_meets H hg d _

/-- One `append` step preserves the well-formedness invariant. -/
theorem appendStep_wf (hg : MineableAll H) (d : Nat) (L : Ledger α) (it : Nat × α)
    (hwf : LedgerWF H d L) : LedgerWF H d (appendStep H hg L it) := by
  obtain ⟨hd, hne, hcv, hmeets⟩ := hwf
  unfold appendStep append
  rw [List.getLast?_eq_getLast L.chain hne]
  refine ⟨hd, by simp, ?_, ?_⟩
  · rw [chainValid_append H L.chain (L.chain.getLast hne)
      (List.getLast?_eq_getLast L.chain hne)]
    exact (Bool.and_eq_true _ _).mpr
      ⟨hcv, checkPair_mine H hg L.difficulty L.chain.length it.1 it.2 _⟩
  · intro b hb
    rcases List.mem_append.mp hb with hmem | hmem
    · exact hmeets b hmem
    · have hb' : b = mine H hg L.difficulty
          (Block.new H L.chain.length it.1 it.2 (L.chain.getLast hne).seal') := by
        simpa using hmem
      subst hb'
      rw [← hd]
      exact mine_meets H hg L.difficulty _

/-- Folding any sequence of `append` steps preserves well-formedness. -/
theorem appendSteps_wf (hg : MineableAll H) (d : Nat) :
    ∀ (items : List (Nat × α)) (L : Ledger α), LedgerWF H d L →
      LedgerWF H d (items.foldl (appendStep H hg) L)
  | [], _, hwf => hwf
  | it :: rest, L, hwf =>
    appendSteps_wf hg d rest (appendStep H hg L it) (appendStep_wf H hg d L it hwf)

/-- C1: for every ledger constructed by `initialize()` followed by any
finite sequence of `append()` calls, `verify()` returns true; for every
position beyond the genesis block the block's `previous_seal` equals the
predecessor's stored seal; and every block's seal passes the difficulty
predicate. -/
theorem ledger_build_verifies (hg : MineableAll H) (d t : Nat) (g : α)
    (items : List (Nat × α)) :
    verify H (buildLedger H hg d t g items) = true ∧
    (∀ i (h : i + 1 < (buildLedger H hg d t g items).chain.length),
      ((buildLedger H hg d t g items).chain.get ⟨i + 1, h⟩).previous_seal
        = ((buildLedger H hg d t g items).chain.get ⟨i, by omega⟩).seal') ∧
    (∀ b ∈ (buildLedger H hg d t g items).chain, meetsDifficulty d b.seal' = true) := by
  obtain ⟨hd, hne, hcv, hmeets⟩ :=
    appendSteps_wf H hg d items _ (ledgerInit_wf H hg d t g)
  refine ⟨hcv, ?_, hmeets⟩
  intro i h
  have hp := chainValid_pairs H _ i hcv h
  simp only [checkPair, Bool.and_eq_true, decide_eq_true_eq] at hp
  exact hp.2

/-- Witness for `ledger_build_verifies`: the mineability hypothesis holds
for the concrete digest `hw` and the built ledger verifies. -/
theorem ledger_build_verifies_witness :
    MineableAll hw ∧ verify hw (buildLedger hw hw_mineable 1 0 0 [(1, 2)]) = true :=
  ⟨hw_mineable, (ledger_build_verifies hw hw_mineable 1 0 0 [(1, 2)]).1⟩

/-- C2: for every difficulty, payload and block with fixed prior fields,
`mine(d)` leaves the block with a seal passing the difficulty predicate,
and `calculate_seal()` recomputed afterwards returns exactly the stored
seal. -/
theorem block_mine_spec (hg : MineableAll H) (d : Nat) (b : Block α) :
    meetsDifficulty d (mine H hg d b).seal' = true ∧
    calculate_seal H (mine H hg d b) = (mine H hg d b).seal' :=
  ⟨mine_meets H hg d b, rfl⟩

/-- Witness for `block_mine_spec` at the concrete digest `hw`. -/
theorem block_mine_spec_witness :
    MineableAll hw ∧
    (meetsDifficulty 2 (mine hw hw_mineable 2 (Block.new hw 0 0 0 "0")).seal' = true ∧
     calculate_seal hw (mine hw hw_mineable 2 (Block.new hw 0 0 0 "0"))
       = (mine hw hw_mineable 2 (Block.new hw 0 0 0 "0")).seal') :=
  ⟨hw_mineable, block_mine_spec hw hw_mineable 2 (Block.new hw 0 0 0 "0")⟩

/-- Placing a block that fails the pair check against its predecessor at a
non-genesis position makes `verify()` return false. -/
theorem verify_set_false (L : Ledger α) (i : Nat) (h1 : i + 1 < L.chain.length)
    (b' : Block α) (hi : i < L.chain.length)
    (hcp : checkPair H (L.chain.get ⟨i, hi⟩) b' = false) :
    verify H { L with chain := L.chain.set (i + 1) b' } = false := by
  cases hx : verify H { L with chain := L.chain.set (i + 1) b' } with
  | false => rfl
  | true =>
    have htrue : chainValid H (L.chain.set (i + 1) b') = true := hx
    have hlen : i + 1 < (L.chain.set (i + 1) b').length := by
      rw [List.length_set]; exact h1
    have hp := chainValid_pairs H (L.chain.set (i + 1) b') i htrue hlen
    have hlt : i < (L.chain.set (i + 1) b').length := by
      rw [List.length_set]; omega
    have e1 : (L.chain.set (i + 1) b').get ⟨i, hlt⟩ = L.chain.get ⟨i, hi⟩ := by
      simp [List.get_eq_getElem, List.getElem_set_ne (show i + 1 ≠ i by omega)]
    have e2 : (L.chain.set (i + 1) b').get ⟨i + 1, hlen⟩ = b' := by
      simp [List.get_eq_getElem]
    simp only [e1, e2] at hp
    exact absurd (hcp.symm.trans hp) Bool.false_ne_true

/-- C3: on a chain that `verify()` accepts, mutating any single field
(payload, nonce, previous_seal, or seal) of any one non-genesis block
without re-mining makes a subsequent `verify()` return false; for the
payload and nonce fields this is under the collision-freeness of the digest
at the tampering site, which is the meaning of "cryptographic" the claim
relies on. -/
theorem ledger_tamper_detected (L : Ledger α) (hv : verify H L = true)
    (i : Nat) (h1 : i + 1 < L.chain.length) :
    (∀ p', H (L.chain.get ⟨i + 1, h1⟩).index (L.chain.get ⟨i + 1, h1⟩).timestamp p'
            (L.chain.get ⟨i + 1, h1⟩).previous_seal (L.chain.get ⟨i + 1, h1⟩).nonce
          ≠ calculate_seal H (L.chain.get ⟨i + 1, h1⟩) →
      verify H ({ L with
        chain := L.chain.set (i + 1) { L.chain.get ⟨i + 1, h1⟩ with payload := p' } }) = false) ∧
    (∀ n', H (L.chain.get ⟨i + 1, h1⟩).index (L.chain.get ⟨i + 1, h1⟩).timestamp
            (L.chain.get ⟨i + 1, h1⟩).payload (L.chain.get ⟨i + 1, h1⟩).previous_seal n'
          ≠ calculate_seal H (L.chain.get ⟨i + 1, h1⟩) →
      verify H ({ L with
        chain := L.chain.set (i + 1) { L.chain.get ⟨i + 1, h1⟩ with nonce := n' } }) = false) ∧
    (∀ ps', ps' ≠ (L.chain.get ⟨i + 1, h1⟩).previous_seal →
      verify H ({ L with
        chain := L.chain.set (i + 1) { L.chain.get ⟨i + 1, h1⟩ with previous_seal := ps' } }) = false) ∧
    (∀ s', s' ≠ (L.chain.get ⟨i + 1, h1⟩).seal' →
      verify H ({ L with
        chain := L.chain.set (i + 1) { L.chain.get ⟨i + 1, h1⟩ with seal' := s' } }) = false) := by
  have hi : i < L.chain.length := by omega
  have hp := chainValid_pairs H L.chain i hv h1
  simp only [checkPair, Bool.and_eq_true, decide_eq_true_eq] at hp
  obtain ⟨hseal, hlink⟩ := hp
  refine ⟨?_, ?_, ?_, ?_⟩
  · intro p' hne
    apply verify_set_false H L i h1 _ hi
    have hx : ¬ (({ L.chain.get ⟨i + 1, h1⟩ with payload := p' } : Block α).seal'
        = calculate_seal H ({ L.chain.get ⟨i + 1, h1⟩ with payload := p' } : Block α)) :=
      fun hh => hne (hh.symm.trans hseal)
    show (decide (({ L.chain.get ⟨i + 1, h1⟩ with payload := p' } : Block α).seal'
            = calculate_seal H ({ L.chain.get ⟨i + 1, h1⟩ with payload := p' } : Block α))
        && decide (({ L.chain.get ⟨i + 1, h1⟩ with payload := p' } : Block α).previous_seal
            = (L.chain.get ⟨i, hi⟩).seal')) = false
    rw [decide_eq_false hx, Bool.false_and]
  · intro n' hne
    apply verify_set_false H L i h1 _ hi
    have hx : ¬ (({ L.chain.get ⟨i + 1, h1⟩ with nonce := n' } : Block α).seal'
        = calculate_seal H ({ L.chain.get ⟨i + 1, h1⟩ with nonce := n' } : Block α)) :=
      fun hh => hne (hh.symm.trans hseal)
    show (decide (({ L.chain.get ⟨i + 1, h1⟩ with nonce := n' } : Block α).seal'
            = calculate_seal H ({ L.chain.get ⟨i + 1, h1⟩ with nonce := n' } : Block α))
        && decide (({ L.chain.get ⟨i + 1, h1⟩ with nonce := n' } : Block α).previous_seal
            = (L.chain.get ⟨i, hi⟩).seal')) = false
    rw [decide_eq_false hx, Bool.false_and]
  · intro ps' hne
    apply verify_set_false H L i h1 _ hi
    have hx : ¬ (({ L.chain.get ⟨i + 1, h1⟩ with previous_seal := ps' } : Block α).previous_seal
        = (L.chain.get ⟨i, hi⟩).seal') :=
      fun hh => hne (hh.trans hlink.symm)
    show (decide (({ L.chain.get ⟨i + 1, h1⟩ with previous_seal := ps' } : Block α).seal'
            = calculate_seal H ({ L.chain.get ⟨i + 1, h1⟩ with previous_seal := ps' } : Block α))
        && decide (({ L.chain.get ⟨i + 1, h1⟩ with previous_seal := ps' } : Block α).previous_seal
            = (L.chain.get ⟨i, hi⟩).seal')) = false
    rw [decide_eq_false hx, Bool.and_false]
  · intro s' hne
    apply verify_set_false H L i h1 _ hi
    have hx : ¬ (({ L.chain.get ⟨i + 1, h1⟩ with seal' := s' } : Block α).seal'
        = calculate_seal H ({ L.chain.get ⟨i + 1, h1⟩ with seal' := s' } : Block α)) :=
      fun hh => hne (hh.trans hseal.symm)
    show (decide (({ L.chain.get ⟨i + 1, h1⟩ with seal' := s' } : Block α).seal'
            = calculate_seal H ({ L.chain.get ⟨i + 1, h1⟩ with seal' := s' } : Block α))
        && decide (({ L.chain.get ⟨i + 1, h1⟩ with seal' := s' } : Block α).previous_seal
            = (L.chain.get ⟨i, hi⟩).seal')) = false
    rw [decide_eq_false hx, Bool.false_and]

/-- Witness for `ledger_tamper_detected`: a concrete valid two-block chain
under the digest `h3`, with each single-field mutation of block 1 detected. -/
theorem ledger_tamper_detected_witness :
    verify h3 L3 = true ∧
    verify h3 { L3 with chain := L3.chain.set 1 { b1 with payload := 8 } } = false ∧
    verify h3 { L3 with chain := L3.chain.set 1 { b1 with nonce := 4 } } = false ∧
    verify h3 { L3 with chain := L3.chain.set 1 { b1 with previous_seal := "h" } } = false ∧
    verify h3 { L3 with chain := L3.chain.set 1 { b1 with seal' := "zz" } } = false := by
  refine ⟨by decide, ?_, ?_, ?_, ?_⟩
  · exact (ledger_tamper_detected h3 L3 (by decide) 0 (by decide)).1 8 (by decide)
  · exact (ledger_tamper_detected h3 L3 (by decide) 0 (by decide)).2.1 4 (by decide)
  · exact (ledger_tamper_detected h3 L3 (by decide) 0 (by decide)).2.2.1 "h" (by decide)
  · exact (ledger_tamper_detected h3 L3 (by decide) 0 (by decide)).2.2.2 "zz" (by decide)

/-- C4: `save` then `load` reproduces a ledger whose chain is identical
block-for-block and field-for-field, in the same order, with no re-mining,
and `verify()` on the reloaded ledger returns the same boolean as on the
pre-save ledger. -/
theorem ledger_save_load_roundtrip (hg : MineableAll H) (t : Nat) (g : α) (L : Ledger α) :
    ∃ L', load H hg L.difficulty t g (save L) = Except.ok L' ∧
      L'.chain = L.chain ∧ L'.difficulty = L.difficulty ∧
      verify H L' = verify H L := by
  have hc : (L.chain.map toRecord).map ofRecord = L.chain := by
    rw [List.map_map]
    exact List.map_id'' (fun b => rfl) L.chain
  refine ⟨⟨(L.chain.map toRecord).map ofRecord, L.difficulty⟩, rfl, hc, rfl, ?_⟩
  show chainValid H ((L.chain.map toRecord).map ofRecord) = chainValid H L.chain
  rw [hc]

/-- Witness for `ledger_save_load_roundtrip` on a concrete ledger. -/
theorem ledger_save_load_roundtrip_witness :
    MineableAll hw ∧
    ∃ L', load hw hw_mineable L4.difficulty 0 0 (save L4) = Except.ok L' ∧
      L'.chain = L4.chain ∧ L'.difficulty = L4.difficulty ∧
      verify hw L' = verify hw L4 :=
  ⟨hw_mineable, ledger_save_load_roundtrip hw hw_mineable 0 0 L4⟩

/-- C5: `load` of a missing source is not an error — it falls back to
`initialize()`, yielding a one-block genesis ledger that passes `verify()`;
`load` of a corrupt source is an error and does not fall back to genesis. -/
theorem ledger_load_fallback (hg : MineableAll H) (d t : Nat) (g : α) :
    (∃ L', load H hg d t g ChainSource.missing = Except.ok L' ∧
      L'.chain.length = 1 ∧ verify H L' = true) ∧
    load H hg d t g ChainSource.corrupt = Except.error LoadError.parseError := by
  exact ⟨⟨ledgerInit H hg t g ⟨[], d⟩, rfl, rfl, rfl⟩, rfl⟩

/-- Witness for `ledger_load_fallback` at the concrete digest `hw`. -/
theorem ledger_load_fallback_witness :
    MineableAll hw ∧
    ((∃ L', load hw hw_mineable 2 0 0 ChainSource.missing = Except.ok L' ∧
        L'.chain.length = 1 ∧ verify hw L' = true) ∧
     load hw hw_mineable 2 0 0 ChainSource.corrupt = Except.error LoadError.parseError) :=
  ⟨hw_mineable, ledger_load_fallback hw hw_mineable 2 0 0⟩

/-- C6: on a non-empty ledger, `append(payload)` succeeds and returns a
sealed block whose index is the pre-call chain length and whose
`previous_seal` is the pre-call tail's seal; the post-call chain is the
pre-call chain extended by exactly that block, with the difficulty
unchanged. -/
theorem ledger_append_spec (hg : MineableAll H) (t : Nat) (p : α) (L : Ledger α)
    (hne : L.chain ≠ []) :
    ∃ L' b, append H hg t p L = some (L', b) ∧
      b.index = L.chain.length ∧
      b.previous_seal = (L.chain.getLast hne).seal' ∧
      L'.chain = L.chain ++ [b] ∧
      L'.difficulty = L.difficulty ∧
      meetsDifficulty L.difficulty b.seal' = true ∧
      calculate_seal H b = b.seal' := by
  refine ⟨{ L with chain := L.chain ++ [mine H hg L.difficulty
        (Block.new H L.chain.length t p (L.chain.getLast hne).seal')] },
    mine H hg L.difficulty (Block.new H L.chain.length t p (L.chain.getLast hne).seal'),
    ?_, rfl, rfl, rfl, rfl, mine_meets H hg L.difficulty _, rfl⟩
  unfold append
  rw [List.getLast?_eq_getLast L.chain hne]

/-- The witness ledger for append has a non-empty chain. -/
theorem L6_ne : L6.chain ≠ [] :=
  List.cons_ne_nil b0 []

/-- Witness for `ledger_append_spec` on a concrete ledger. -/
theorem ledger_append_spec_witness :
    MineableAll hw ∧ L6.chain ≠ [] ∧
    (∃ L' b, append hw hw_mineable 9 5 L6 = some (L', b) ∧
      b.index = L6.chain.length ∧
      b.previous_seal = (L6.chain.getLast L6_ne).seal' ∧
      L'.chain = L6.chain ++ [b] ∧
      L'.difficulty = L6.difficulty ∧
      meetsDifficulty L6.difficulty b.seal' = true ∧
      calculate_seal hw b = b.seal') :=
  ⟨hw_mineable, L6_ne, ledger_append_spec hw hw_mineable 9 5 L6 L6_ne⟩

/-- C7 counterexample: the claim that scheduled routine execution is gated
on a passing integrity check is false of the code — at a concrete agent,
`run_morning_routine` produces a trace that runs the routine with no
preceding integrity check. -/
theorem routine_gating_cex :
    ¬ GatedTrace (run_morning_routine (fun _ => "done")) := by
  intro hG
  obtain ⟨j, hj, hlt, _⟩ :=
    hG 0 (by decide) ⟨"Please run morning routine.", rfl⟩
  omega

/-- C7 amended: `run_morning_routine` is not gated — it performs no
integrity check at all and unconditionally submits the fixed routine
message to the agent. -/
theorem routine_runs_unconditionally (agent : String → String) :
    (∀ r, AgentAction.integrityCheck r ∉ run_morning_routine agent) ∧
    AgentAction.agentRun "Please run morning routine." ∈ run_morning_routine agent := by
  constructor
  · intro r hmem
    simp [run_morning_routine] at hmem
  · simp [run_morning_routine]

/-- C8: `get_todays_todoist_tasks` never raises — with no token it returns
the single missing-token error dictionary without performing the HTTP
request, and with a token but a non-200 response it returns a single-element
list whose entry carries the error text. -/
theorem todoist_tasks_error_paths (resp : HttpResp) :
    get_todays_todoist_tasks none resp
      = (false, [TodoEntry.errorEntry "Missing TODOIST_API_TOKEN"]) ∧
    ∀ tok : String, tok ≠ "" → resp.statusCode ≠ 200 →
      get_todays_todoist_tasks (some tok) resp
        = (true, [TodoEntry.errorEntry ("Todoist API error: " ++ resp.text)]) := by
  constructor
  · rfl
  · intro tok htok hst
    simp [get_todays_todoist_tasks, htok, hst]

/-- Witness for `todoist_tasks_error_paths` on a concrete failed response. -/
theorem todoist_tasks_error_paths_witness :
    (("t" : String) ≠ "" ∧ (⟨500, "boom", []⟩ : HttpResp).statusCode ≠ 200) ∧
    get_todays_todoist_tasks (some "t") ⟨500, "boom", []⟩
      = (true, [TodoEntry.errorEntry ("Todoist API error: " ++ "boom")]) :=
  ⟨⟨by decide, by decide⟩,
   (todoist_tasks_error_paths ⟨500, "boom", []⟩).2 "t" (by decide) (by decide)⟩

/-- C9: the async variant of each of the six agent tools raises
`NotImplementedError` on every input — no tool supports asynchronous
execution. -/
theorem tools_arun_not_implemented (q : String) :
    AlarmTool_arun q
      = Except.error (PyError.notImplementedError "AlarmTool does not support async") ∧
    FetchNewsTool_arun q
      = Except.error (PyError.notImplementedError "FetchNewsTool does not support async") ∧
    SummarizeTextTool_arun q
      = Except.error (PyError.notImplementedError "SummarizeTextTool does not support async") ∧
    StartMusicTool_arun q
      = Except.error (PyError.notImplementedError "StartMusicTool does not support async") ∧
    CalendarTool_arun q
      = Except.error (PyError.notImplementedError "CalendarTool does not support async") ∧
    TasksTool_arun q
      = Except.error (PyError.notImplementedError "TasksTool does not support async") :=
  ⟨rfl, rfl, rfl, rfl, rfl, rfl⟩

/-- C10: `control_security` returns a string and mutates at most the
`security` field — `lights`, `media` and `climate` are always unchanged; on
a parsed object with an `"action"` key it sets `security` to true exactly
when the action equals `"arm"`; on a parse failure, a non-object command,
or a missing key it returns the failure string with the state entirely
unchanged. -/
theorem control_security_frame (parsed : Option PyJson) (st : DeviceState) :
    ((control_security parsed st).2.lights = st.lights ∧
     (control_security parsed st).2.media = st.media ∧
     (control_security parsed st).2.climate = st.climate) ∧
    (∀ fields v, parsed = some (PyJson.obj fields) →
      jsonLookup "action" fields = some v →
      ((control_security parsed st).2.security = true ↔ v = JVal.str "arm")) ∧
    (parsed = none → control_security parsed st = ("Security control failed", st)) ∧
    (∀ v, parsed = some (PyJson.nonObj v) →
      control_security parsed st = ("Security control failed", st)) ∧
    (∀ fields, parsed = some (PyJson.obj fields) →
      jsonLookup "action" fields = none →
      control_security parsed st = ("Security control failed", st)) := by
  cases parsed with
  | none =>
    refine ⟨⟨rfl, rfl, rfl⟩, ?_, fun _ => rfl, ?_, ?_⟩
    · intro fields v h hv; simp at h
    · intro v h; simp at h
    · intro fields h hl; simp at h
  | some pj =>
    cases pj with
    | nonObj v0 =>
      refine ⟨⟨rfl, rfl, rfl⟩, ?_, ?_, fun v h => rfl, ?_⟩
      · intro fields v h hv; simp at h
      · intro h; simp at h
      · intro fields h hl; simp at h
    | obj fields0 =>
      cases hx : jsonLookup "action" fields0 with
      | none =>
        refine ⟨?_, ?_, ?_, ?_, ?_⟩
        · simp [control_security, hx]
        · intro fields v h hv
          have hf : fields0 = fields := by simpa using h
          subst hf
          rw [hx] at hv
          simp at hv
        · intro h; simp at h
        · intro v h; simp at h
        · intro fields h hl
          simp [control_security, hx]
      | some v0 =>
        refine ⟨?_, ?_, ?_, ?_, ?_⟩
        · simp [control_security, hx]
        · intro fields v h hv
          have hf : fields0 = fields := by simpa using h
          subst hf
          rw [hx] at hv
          have hv0 : v0 = v := by simpa using hv
          subst hv0
          simp [control_security, hx]
        · intro h; simp at h
        · intro v h; simp at h
        · intro fields h hl
          have hf : fields0 = fields := by simpa using h
          subst hf
          rw [hx] at hl
          simp at hl

/-- Witness for `control_security_frame` on a concrete arm command. -/
theorem control_security_frame_witness :
    ((some (PyJson.obj [("action", JVal.str "arm")]) : Option PyJson)
        = some (PyJson.obj [("action", JVal.str "arm")]) ∧
     jsonLookup "action" [("action", JVal.str "arm")] = some (JVal.str "arm")) ∧
    ((control_security (some (PyJson.obj [("action", JVal.str "arm")]))
        ⟨[], "off", [], false⟩).2.security = true ↔ JVal.str "arm" = JVal.str "arm") :=
  ⟨⟨rfl, by decide⟩,
   (control_security_frame (some (PyJson.obj [("action", JVal.str "arm")]))
      ⟨[], "off", [], false⟩).2.1 [("action", JVal.str "arm")] (JVal.str "arm")
      rfl (by decide)⟩
